import Mathlib

/-!
Verification of the world-state core of the cmpm121-d3 token-crafting game
(src/src/main.ts, final revision with persistence and movement strategies).

Modelling conventions, stated once here:

* JavaScript `Map<string, V>` and `Set<string>` are modelled as association
  lists / lists of strings with the insertion-order semantics of the JS
  collections (`Map.set` updates an existing key in place, otherwise appends;
  `Set.add` appends if absent; `Map.delete` removes the unique entry).
* JavaScript numbers that the game stores in cells and the hand are integers
  in every reachable state, so cell contents are `Option Int`
  (`none` models `null`).
* The `luck` hash (imported from `_luck.ts`, not part of the sources) is the
  Deterministic Field of the spec: a pure function from a string key to a
  value in [0,1).  It is kept abstract as a parameter `luck : String → ℚ`;
  every development below is quantified over it, and concrete instances are
  supplied only in witnesses and counterexamples.
* `cellStates.get(key)!` (a TypeScript non-null assertion) is modelled by
  defaulting to `none`; the store-consistency theorem shows the default is
  never taken on an overridden key in a reachable state.
* DOM, Leaflet layers and `localStorage` writes have no effect on the world
  state; only the bookkeeping the game itself keeps (`cellRects`,
  `cellLabels`) is modelled.  `alert` calls are modelled as a returned
  `Signal` value.
* `JSON.parse` output is modelled by the inductive `Json`; snapshot fields
  whose shape the loader would never produce from a save are mapped to the
  nearest representable value, and no theorem depends on those corners
  except where explicitly constructed (the failing snapshot of claim C7 only
  exercises faithfully modelled behaviour: a number is not iterable, so the
  `for..of` loop throws and the `catch` branch returns `false`).
-/

namespace WorldOfBits

/-! ### JavaScript collections -/

/-- JS `Map.set`: update the entry in place if the key is present, else
append a new entry at the end (insertion order). -/
def mapSet {α : Type} (m : List (String × α)) (k : String) (v : α) :
    List (String × α) :=
  match m with
  | [] => [(k, v)]
  | (k₁, v₁) :: rest =>
      if k₁ = k then (k, v) :: rest else (k₁, v₁) :: mapSet rest k v

/-- JS `Map.get`: first (unique) entry for the key, `none` models
`undefined`. -/
def mapGet {α : Type} (m : List (String × α)) (k : String) : Option α :=
  match m with
  | [] => none
  | (k₁, v₁) :: rest => if k₁ = k then some v₁ else mapGet rest k

/-- JS `Map.delete`: drop the unique entry for the key. -/
def mapDelete {α : Type} (m : List (String × α)) (k : String) :
    List (String × α) :=
  match m with
  | [] => []
  | (k₁, v₁) :: rest =>
      if k₁ = k then rest else (k₁, v₁) :: mapDelete rest k

/-- JS `Set.add`: append if absent. -/
def setAdd (s : List String) (k : String) : List String :=
  if k ∈ s then s else s ++ [k]

/-! ### Constants (main.ts, final revision) -/

/-- The JS literal `1e-4`, as the exact rational (written with `mkRat` so
that the kernel can evaluate it). -/
def TILE_DEGREES : ℚ := mkRat 1 10000

def NEIGHBORHOOD_SIZE : Int := 8
def INTERACTION_RADIUS : Int := 3

/-- The JS literal `0.3`, as the exact rational. -/
def CACHE_SPAWN_PROBABILITY : ℚ := mkRat 3 10

def GOAL_VALUE : Int := 64

/-- The decimal classroom latitude `36.997936938057016`, exact. -/
def CLASSROOM_LAT : ℚ := mkRat 36997936938057016 1000000000000000

/-- The decimal classroom longitude `-122.05703507501151`, exact. -/
def CLASSROOM_LNG : ℚ := mkRat (-12205703507501151) 100000000000000

/-! ### Data model -/

/-- A lattice cell coordinate, the `{ i, j }` pairs of the source. -/
structure Coord where
  i : Int
  j : Int
deriving DecidableEq, Repr

/-- The module-level mutable state of main.ts that the game logic reads and
writes: the held token, the sparse override store (`cellStates` plus
`modifiedCells`), the render-layer bookkeeping (`cellLabels`, `cellRects`,
with the rectangle abstracted to its `nearby` colouring flag), and the
player position held by the active movement strategy. -/
structure GameState where
  heldToken : Option Int
  cellStates : List (String × Option Int)
  modifiedCells : List String
  cellLabels : List (String × Int)
  cellRects : List (String × Bool)
  playerPosition : Coord
deriving DecidableEq, Repr

/-! ### Helper functions -/

/-- `getCellKey`: the template literal `${i},${j}`. -/
def getCellKey (i j : Int) : String :=
  toString i ++ "," ++ toString j

/-- JS `Array.prototype.toString` on an array of (stringified) elements:
join with commas. -/
def jsArrayToString : List String → String
  | [] => ""
  | [x] => x
  | x :: xs => x ++ "," ++ jsArrayToString xs

/-- `latLngToCell`: floor of the offset from Null Island divided by the tile
size.  The JS source computes this with binary floating point; the inputs
used by the game are far from integer boundaries, so the exact rational
computation agrees. -/
def latLngToCell (lat lng : ℚ) : Coord :=
  ⟨⌊lat / TILE_DEGREES⌋, ⌊lng / TILE_DEGREES⌋⟩

/-- The classroom start cell, `latLngToCell(CLASSROOM_LATLNG...)`. -/
def defaultPosition : Coord := latLngToCell CLASSROOM_LAT CLASSROOM_LNG

/-- `cellDistance`: Chebyshev distance `max(|i1-i2|, |j1-j2|)`. -/
def cellDistance (i₁ j₁ i₂ j₂ : Int) : Int :=
  max (i₁ - i₂).natAbs (j₁ - j₂).natAbs

/-- `isNearby`: within `INTERACTION_RADIUS` of the current player position
(the position of the active movement strategy; the strategy is installed
before any interaction is possible). -/
def isNearby (st : GameState) (i j : Int) : Bool :=
  decide (cellDistance st.playerPosition.i st.playerPosition.j i j ≤
    INTERACTION_RADIUS)

/-! ### World state: resolve and mutate -/

/-- `getCellState` (Flyweight): an overridden cell returns its stored
record (the non-null assertion on the lookup is modelled by `getD none`);
an untouched cell is generated from the two luck draws,
`luck([i, j].toString())` for presence and
`luck([i, j, "value"].toString())` for the initial value, and is not
stored. -/
def getCellState (luck : String → ℚ) (st : GameState) (i j : Int) :
    Option Int :=
  let key := getCellKey i j
  if key ∈ st.modifiedCells then
    (mapGet st.cellStates key).getD none
  else if luck (jsArrayToString [toString i, toString j]) <
      CACHE_SPAWN_PROBABILITY then
    some (if luck (jsArrayToString [toString i, toString j, "value"]) <
      mkRat 1 2 then 1 else 2)
  else
    none

/-- `setCellState`: record the content and mark the cell overridden. -/
def setCellState (st : GameState) (i j : Int) (value : Option Int) :
    GameState :=
  { st with
    cellStates := mapSet st.cellStates (getCellKey i j) value
    modifiedCells := setAdd st.modifiedCells (getCellKey i j) }

/-! ### Render layer -/

/-- `removeTokenLabel`: remove the marker layer for a cell (the Leaflet
`removeLayer` call has no modelled effect). -/
def removeTokenLabel (st : GameState) (i j : Int) : GameState :=
  { st with cellLabels := mapDelete st.cellLabels (getCellKey i j) }

/-- `createTokenLabel`: bail out when the cell has no rectangle, otherwise
delete any previous label and append a fresh one (the marker is abstracted
to the displayed value). -/
def createTokenLabel (st : GameState) (i j : Int) (value : Int) :
    GameState :=
  if (mapGet st.cellRects (getCellKey i j)).isSome then
    { st with
      cellLabels :=
        mapDelete st.cellLabels (getCellKey i j) ++ [(getCellKey i j, value)] }
  else
    st

/-- `clearCellVisuals`: tear down every rectangle and label; the override
store is untouched. -/
def clearCellVisuals (st : GameState) : GameState :=
  { st with cellRects := [], cellLabels := [] }

/-- `spawnCell`: resolve the content, record the rectangle (abstracted to
its `nearby` colouring flag), and display a label when a token is
present. -/
def spawnCell (luck : String → ℚ) (st : GameState) (i j : Int) :
    GameState :=
  let tokenValue := getCellState luck st i j
  let nearby := isNearby st i j
  let st₁ := { st with cellRects := mapSet st.cellRects (getCellKey i j) nearby }
  match tokenValue with
  | some v => createTokenLabel st₁ i j v
  | none => st₁

/-- The integers `a ≤ k < b`, in increasing order: the index values taken
by a `for (let k = a; k < b; k++)` loop. -/
def intRange (a b : Int) : List Int :=
  (List.range (b - a).toNat).map (fun n : Nat => a + (n : Int))

/-- The `(i, j)` pairs visited by the nested loops of
`spawnCellsAroundPlayer`: `i` from `center.i - NEIGHBORHOOD_SIZE` up to but
excluding `center.i + NEIGHBORHOOD_SIZE`, `j` likewise, outer loop on `i`. -/
def neighborhoodList (center : Coord) : List (Int × Int) :=
  (intRange (center.i - NEIGHBORHOOD_SIZE) (center.i + NEIGHBORHOOD_SIZE)).flatMap
    (fun i =>
      (intRange (center.j - NEIGHBORHOOD_SIZE) (center.j + NEIGHBORHOOD_SIZE)).map
        (fun j => (i, j)))

/-- `spawnCellsAroundPlayer`: spawn every cell of the loop nest around the
current player position. -/
def spawnCellsAroundPlayer (luck : String → ℚ) (st : GameState) :
    GameState :=
  (neighborhoodList st.playerPosition).foldl
    (fun s p => spawnCell luck s p.1 p.2) st

/-- A player move: `ButtonMovementStrategy.moveBy` updates the position and
fires `onPlayerMoved`, which recenters the map (no modelled effect), clears
the visuals, respawns the neighborhood and saves to storage (no modelled
effect on the in-memory state). -/
def movePlayer (luck : String → ℚ) (di dj : Int) (st : GameState) :
    GameState :=
  spawnCellsAroundPlayer luck
    (clearCellVisuals
      { st with
        playerPosition :=
          ⟨st.playerPosition.i + di, st.playerPosition.j + dj⟩ })

/-! ### Click handling -/

/-- The user-visible outcome of a click: `ok` for the silent cases, the two
`alert` messages as explicit signals. -/
inductive Signal where
  | ok
  | tooFar
  | cannotCombine
deriving DecidableEq, Repr

/-- `handleCellClick`: the four-case pickup / place / combine / reject
chain.  Each mutating case also calls `updateStatus` and `saveGameState`,
neither of which affects the modelled state. -/
def handleCellClick (luck : String → ℚ) (st : GameState) (i j : Int) :
    GameState × Signal :=
  let cellValue := getCellState luck st i j
  match cellValue, st.heldToken with
  | some v, none =>
      let st₁ := setCellState { st with heldToken := some v } i j none
      (removeTokenLabel st₁ i j, Signal.ok)
  | none, some h =>
      let st₁ := createTokenLabel (setCellState st i j (some h)) i j h
      ({ st₁ with heldToken := none }, Signal.ok)
  | some v, some h =>
      if v = h then
        let newValue := v * 2
        let st₁ :=
          createTokenLabel (setCellState st i j (some newValue)) i j newValue
        ({ st₁ with heldToken := none }, Signal.ok)
      else
        (st, Signal.cannotCombine)
  | none, none => (st, Signal.ok)

/-- The click listener installed on each rectangle: reject with the
too-far alert when the cell is out of range, otherwise run
`handleCellClick`.  (The listener captures the `nearby` flag of the spawn
moment; between any click and the last spawn the player position is
unchanged, so checking `isNearby` at click time is equivalent.) -/
def clickCell (luck : String → ℚ) (st : GameState) (i j : Int) :
    GameState × Signal :=
  if isNearby st i j then handleCellClick luck st i j
  else (st, Signal.tooFar)

/-! ### Persistence -/

/-- A leaf JSON value. -/
inductive JAtom where
  | null
  | num (n : Int)
  | str (s : String)
deriving DecidableEq, Repr

/-- An element of a stored array: a leaf, or a nested array of leaves
(the `[key, value]` entries).  This stratified shape covers everything the
snapshot logic inspects; deeper nesting is outside the modelled domain and
no theorem depends on it. -/
inductive JEntry where
  | atom (a : JAtom)
  | pair (xs : List JAtom)
deriving DecidableEq, Repr

/-- A field of the top-level snapshot object: a leaf, an array, or an
object of leaves (the `playerPosition` record). -/
inductive JField where
  | atom (a : JAtom)
  | arr (xs : List JEntry)
  | objA (fields : List (String × JAtom))
deriving DecidableEq, Repr

/-- A parsed JSON document, the output domain of `JSON.parse` restricted
to the shapes the snapshot logic inspects. -/
inductive Json where
  | atom (a : JAtom)
  | arr (xs : List JEntry)
  | obj (fields : List (String × JField))
deriving DecidableEq, Repr

/-- Property access `j.name` on a parsed value: defined fields of objects,
`undefined` (here `none`) otherwise. -/
def jGet (j : Json) (k : String) : Option JField :=
  match j with
  | Json.obj fields => mapGet fields k
  | _ => none

/-- What `localStorage.getItem("gameState")` followed by `JSON.parse` can
yield: no stored item, a stored item that fails to parse (the exception is
caught immediately, before any mutation), or a parsed value. -/
inductive StoredState where
  | absent
  | unparseable
  | parsed (j : Json)

/-- Serialization of a `number | null` cell content or held token. -/
def numOrNullToJson : Option Int → JAtom
  | some n => JAtom.num n
  | none => JAtom.null

/-- Serialization of one `cellStates` entry, `[key, value]`. -/
def entryToJson (kv : String × Option Int) : JEntry :=
  JEntry.pair [JAtom.str kv.1, numOrNullToJson kv.2]

/-- `saveGameState`: the object written to storage —  held token, current
strategy position, `Array.from(cellStates.entries())` and
`Array.from(modifiedCells)`. -/
def saveGameState (st : GameState) : Json :=
  Json.obj
    [("heldToken", JField.atom (numOrNullToJson st.heldToken)),
     ("playerPosition",
       JField.objA
         [("i", JAtom.num st.playerPosition.i),
          ("j", JAtom.num st.playerPosition.j)]),
     ("cellStates", JField.arr (st.cellStates.map entryToJson)),
     ("modifiedCells",
       JField.arr (st.modifiedCells.map
         (fun k => JEntry.atom (JAtom.str k))))]

/-- Reading `gameState.heldToken` into the `number | null` variable.
Fields of a shape a save never produces are mapped to `null`. -/
def readHeld (o : Option JField) : Option Int :=
  match o with
  | some (JField.atom (JAtom.num n)) => some n
  | _ => none

/-- One turn of the `for (const [key, value] of gameState.cellStates)`
loop: destructure the entry and store it.  Entries of a shape a save never
produces are modelled as throwing. -/
def parseCellEntry (e : JEntry) : Option (String × Option Int) :=
  match e with
  | JEntry.pair (JAtom.str k :: JAtom.num n :: _) => some (k, some n)
  | JEntry.pair (JAtom.str k :: JAtom.null :: _) => some (k, none)
  | _ => none

/-- The `cellStates` restore loop; on a throw the partially filled map is
left behind (`Except.error` carries it). -/
def loadCellEntries :
    List JEntry → List (String × Option Int) →
    Except (List (String × Option Int)) (List (String × Option Int))
  | [], acc => Except.ok acc
  | e :: es, acc =>
      match parseCellEntry e with
      | some (k, v) => loadCellEntries es (mapSet acc k v)
      | none => Except.error acc

/-- The `modifiedCells` restore loop. -/
def loadModifiedKeys :
    List JEntry → List String → Except (List String) (List String)
  | [], acc => Except.ok acc
  | e :: es, acc =>
      match e with
      | JEntry.atom (JAtom.str k) => loadModifiedKeys es (setAdd acc k)
      | _ => Except.error acc

/-- `loadGameState`: returns whether a state was loaded, together with the
resulting in-memory state.  Mutations made before a `catch` fires stay
applied, exactly as in the source (assign `heldToken`, clear `cellStates`,
fill it, clear `modifiedCells`, fill it, return `true`). -/
def loadGameState (stored : StoredState) (st : GameState) :
    Bool × GameState :=
  match stored with
  | StoredState.absent => (false, st)
  | StoredState.unparseable => (false, st)
  | StoredState.parsed j =>
      let st₁ :=
        { st with heldToken := readHeld (jGet j "heldToken"), cellStates := [] }
      match jGet j "cellStates" with
      | some (JField.arr entries) =>
          match loadCellEntries entries [] with
          | Except.error acc => (false, { st₁ with cellStates := acc })
          | Except.ok cs =>
              let st₂ := { st₁ with cellStates := cs, modifiedCells := [] }
              match jGet j "modifiedCells" with
              | some (JField.arr keys) =>
                  match loadModifiedKeys keys [] with
                  | Except.error acc =>
                      (false, { st₂ with modifiedCells := acc })
                  | Except.ok mc => (true, { st₂ with modifiedCells := mc })
              | _ => (false, st₂)
      | _ => (false, st₁)

/-- Reading `saved.playerPosition` at startup.  Shapes a save never
produces are mapped to the origin; only the success path of a loadable
snapshot reaches this read. -/
def readCoord (o : Option JField) : Coord :=
  match o with
  | some (JField.objA fields) =>
      match mapGet fields "i", mapGet fields "j" with
      | some (JAtom.num a), some (JAtom.num b) => ⟨a, b⟩
      | _, _ => ⟨0, 0⟩
  | _ => ⟨0, 0⟩

/-- The startup restore sequence: run `loadGameState`; take the start
position from the re-parsed snapshot when it loaded, else the classroom
default; install the movement strategy at that position; then spawn the
neighborhood. -/
def restoreStartup (luck : String → ℚ) (stored : StoredState)
    (st : GameState) : GameState :=
  let r := loadGameState stored st
  let startPos :=
    match stored, r.1 with
    | StoredState.parsed j, true => readCoord (jGet j "playerPosition")
    | _, _ => defaultPosition
  spawnCellsAroundPlayer luck { r.2 with playerPosition := startPos }

/-- `resetGameState` with the confirm dialog accepted: drop the stored
snapshot (no modelled effect), empty the hand and the override store,
re-install the strategy at the classroom cell, and rebuild the visuals. -/
def resetGameState (luck : String → ℚ) (st : GameState) : GameState :=
  spawnCellsAroundPlayer luck
    (clearCellVisuals
      { st with
        heldToken := none
        cellStates := []
        modifiedCells := []
        playerPosition := defaultPosition })

/-- The module-level state right after initialisation with no stored
snapshot, before the startup spawn. -/
def initialState : GameState :=
  { heldToken := none
    cellStates := []
    modifiedCells := []
    cellLabels := []
    cellRects := []
    playerPosition := defaultPosition }

/-! ### Reachability -/

/-- The states a play session can be in: the fresh start, plus closure
under player moves, clicks, the startup spawn, the reset button, and a
page reload that restores the snapshot saved from an earlier reachable
state. -/
inductive Reachable (luck : String → ℚ) : GameState → Prop where
  | init : Reachable luck initialState
  | move (di dj : Int) {s : GameState} :
      Reachable luck s → Reachable luck (movePlayer luck di dj s)
  | click (i j : Int) {s : GameState} :
      Reachable luck s → Reachable luck (clickCell luck s i j).1
  | spawn {s : GameState} :
      Reachable luck s → Reachable luck (spawnCellsAroundPlayer luck s)
  | reset {s : GameState} :
      Reachable luck s → Reachable luck (resetGameState luck s)
  | load {s : GameState} :
      Reachable luck s →
      Reachable luck
        (restoreStartup luck (StoredState.parsed (saveGameState s))
          initialState)

/-! ### Derived predicates -/

/-- Two states that agree on everything the world-state reads observe:
override store, held token and player position. -/
def ViewOnlyEq (s t : GameState) : Prop :=
  s.cellStates = t.cellStates ∧ s.modifiedCells = t.modifiedCells ∧
    s.heldToken = t.heldToken ∧ s.playerPosition = t.playerPosition

/-- The two halves of the override store agree: both key sets are
duplicate-free and a key is marked modified exactly when it has a
`cellStates` entry. -/
def WFStore (st : GameState) : Prop :=
  (st.cellStates.map Prod.fst).Nodup ∧ st.modifiedCells.Nodup ∧
    ∀ k, k ∈ st.modifiedCells ↔ (mapGet st.cellStates k).isSome = true

/-- A cell content or held token is empty or a positive integer power of
two. -/
def optPow2 : Option Int → Prop
  | none => True
  | some v => 0 < v ∧ ∃ n : ℕ, v = 2 ^ n

/-- Every resolvable cell content and the held token obey `optPow2`. -/
def Pow2Inv (luck : String → ℚ) (st : GameState) : Prop :=
  (∀ i j : Int, optPow2 (getCellState luck st i j)) ∧ optPow2 st.heldToken

/-! ### Rebuild operations -/

/-- The operations that rebuild the visible neighborhood: a player move, a
bare visual teardown, and a bare neighborhood respawn. -/
inductive RebuildOp where
  | move (di dj : Int)
  | clearVisuals
  | spawnNeighborhood

/-- Run one rebuild operation. -/
def applyRebuild (luck : String → ℚ) (st : GameState) :
    RebuildOp → GameState
  | RebuildOp.move di dj => movePlayer luck di dj st
  | RebuildOp.clearVisuals => clearCellVisuals st
  | RebuildOp.spawnNeighborhood => spawnCellsAroundPlayer luck st

/-- Run a sequence of rebuild operations. -/
def applyRebuilds (luck : String → ℚ) (ops : List RebuildOp)
    (st : GameState) : GameState :=
  ops.foldl (applyRebuild luck) st

/-! ### Concrete instances used by witnesses and counterexamples -/

/-- A concrete Deterministic Field instance: every key draws 0. -/
def luckW : String → ℚ := fun _ => 0

/-- A concrete Deterministic Field instance separating the value key the
code really derives (`"0,0,value"`) from the one claim C3 names
(`"0,0" ++ "value"`). -/
def luckCex : String → ℚ := fun s => if s = "0,0,value" then mkRat 3 5 else 0

/-- A state holding token 64 in hand and in the overridden cell (0,0),
with the player standing on (0,0). -/
def stW : GameState :=
  { heldToken := some 64
    cellStates := [("0,0", some 64)]
    modifiedCells := ["0,0"]
    cellLabels := []
    cellRects := []
    playerPosition := ⟨0, 0⟩ }

/-- A state holding token 2 in hand with token 1 in the overridden cell
(0,0), the player standing on (0,0). -/
def stC6 : GameState :=
  { heldToken := some 2
    cellStates := [("0,0", some 1)]
    modifiedCells := ["0,0"]
    cellLabels := []
    cellRects := []
    playerPosition := ⟨0, 0⟩ }

/-- A parseable but malformed snapshot: `heldToken` is a number but
`cellStates` is not iterable, so the restore loop throws after the held
token was already assigned. -/
def badSnapshot : Json :=
  Json.obj
    [("heldToken", JField.atom (JAtom.num 7)),
     ("cellStates", JField.atom (JAtom.num 5))]

/-- The state after one pickup click on the start cell. -/
def s10 : GameState := (clickCell luckW initialState 369979 (-1220571)).1

/-! ### Lemmas about the JS collections -/

theorem mapSet_cons_self {α : Type} (tl : List (String × α)) (k : String)
    (v₁ v : α) : mapSet ((k, v₁) :: tl) k v = (k, v) :: tl := by
  simp [mapSet]

theorem mapGet_cons_self {α : Type} (tl : List (String × α)) (k : String)
    (v : α) : mapGet ((k, v) :: tl) k = some v := by
  simp [mapGet]

theorem mapGet_mapSet_self {α : Type} (m : List (String × α)) (k : String)
    (v : α) : mapGet (mapSet m k v) k = some v := by
  induction m with
  | nil => simp [mapSet, mapGet]
  | cons hd tl ih =>
      obtain ⟨k₁, v₁⟩ := hd
      by_cases h : k₁ = k
      · simp [mapSet, h, mapGet]
      · simp [mapSet, h, mapGet, ih]

theorem mapGet_mapSet_ne {α : Type} (m : List (String × α)) {a k : String}
    (v : α) (h : a ≠ k) : mapGet (mapSet m k v) a = mapGet m a := by
  induction m with
  | nil => simp [mapSet, mapGet, Ne.symm h]
  | cons hd tl ih =>
      obtain ⟨k₁, v₁⟩ := hd
      by_cases hk : k₁ = k
      · subst hk
        simp [mapSet, mapGet, Ne.symm h]
      · simp only [mapSet, if_neg hk, mapGet]
        rw [ih]

theorem mem_keys_mapSet {α : Type} (m : List (String × α)) (a k : String)
    (v : α) :
    a ∈ (mapSet m k v).map Prod.fst ↔ a ∈ m.map Prod.fst ∨ a = k := by
  induction m with
  | nil => simp [mapSet]
  | cons hd tl ih =>
      obtain ⟨k₁, v₁⟩ := hd
      by_cases hk : k₁ = k
      · subst hk
        rw [mapSet_cons_self]
        simp only [List.map_cons, List.mem_cons]
        tauto
      · simp only [mapSet, if_neg hk, List.map_cons, List.mem_cons, ih]
        tauto

theorem nodup_keys_mapSet {α : Type} (m : List (String × α)) (k : String)
    (v : α) (h : (m.map Prod.fst).Nodup) :
    ((mapSet m k v).map Prod.fst).Nodup := by
  induction m with
  | nil => simp [mapSet]
  | cons hd tl ih =>
      obtain ⟨k₁, v₁⟩ := hd
      simp only [List.map_cons, List.nodup_cons] at h
      by_cases hk : k₁ = k
      · subst hk
        rw [mapSet_cons_self]
        simp only [List.map_cons, List.nodup_cons]
        exact h
      · simp only [mapSet, if_neg hk, List.map_cons, List.nodup_cons]
        refine ⟨?_, ih h.2⟩
        intro hmem
        rcases (mem_keys_mapSet tl k₁ k v).mp hmem with h₁ | h₁
        · exact h.1 h₁
        · exact hk h₁

theorem mapGet_isSome_iff_mem {α : Type} (m : List (String × α))
    (k : String) : (mapGet m k).isSome = true ↔ k ∈ m.map Prod.fst := by
  induction m with
  | nil => simp [mapGet]
  | cons hd tl ih =>
      obtain ⟨k₁, v₁⟩ := hd
      by_cases h : k₁ = k
      · simp [mapGet, h]
      · simp [mapGet, h, ih, Ne.symm h]

theorem mapGet_eq_some_iff_mem {α : Type} {m : List (String × α)}
    (hnd : (m.map Prod.fst).Nodup) (k : String) (v : α) :
    mapGet m k = some v ↔ (k, v) ∈ m := by
  induction m with
  | nil => simp [mapGet]
  | cons hd tl ih =>
      obtain ⟨k₁, v₁⟩ := hd
      simp only [List.map_cons, List.nodup_cons] at hnd
      by_cases h : k₁ = k
      · subst h
        rw [mapGet_cons_self]
        simp only [List.mem_cons, Option.some.injEq]
        constructor
        · rintro rfl
          exact Or.inl rfl
        · rintro (heq | hmem)
          · injection heq with _ hv
            exact hv.symm
          · exact absurd (List.mem_map_of_mem Prod.fst hmem) hnd.1
      · simp only [mapGet, if_neg h]
        rw [ih hnd.2, List.mem_cons]
        constructor
        · exact fun hmem => Or.inr hmem
        · rintro (heq | hmem)
          · injection heq with hk _
            exact absurd hk.symm h
          · exact hmem

theorem mem_setAdd_iff (s : List String) (a k : String) :
    a ∈ setAdd s k ↔ a ∈ s ∨ a = k := by
  by_cases h : k ∈ s
  · simp only [setAdd, if_pos h]
    constructor
    · tauto
    · rintro (ha | rfl)
      · exact ha
      · exact h
  · simp [setAdd, if_neg h]

theorem setAdd_nodup (s : List String) (k : String) (h : s.Nodup) :
    (setAdd s k).Nodup := by
  by_cases hk : k ∈ s
  · simpa [setAdd, hk] using h
  · simp only [setAdd, if_neg hk]
    simpa [List.nodup_append] using ⟨h, fun ha => hk ha⟩

theorem mapSet_of_not_mem {α : Type} (m : List (String × α)) {k : String}
    (v : α) (h : k ∉ m.map Prod.fst) : mapSet m k v = m ++ [(k, v)] := by
  induction m with
  | nil => simp [mapSet]
  | cons hd tl ih =>
      obtain ⟨k₁, v₁⟩ := hd
      simp only [List.map_cons, List.mem_cons] at h
      push_neg at h
      simp [mapSet, Ne.symm h.1, ih h.2]

theorem foldl_mapSet_append {α : Type} (m : List (String × α)) :
    ∀ acc : List (String × α),
      (∀ a ∈ m.map Prod.fst, a ∉ acc.map Prod.fst) →
      (m.map Prod.fst).Nodup →
      m.foldl (fun acc kv => mapSet acc kv.1 kv.2) acc = acc ++ m := by
  induction m with
  | nil => intro acc _ _; simp
  | cons hd tl ih =>
      intro acc hdisj hnd
      obtain ⟨k, v⟩ := hd
      simp only [List.map_cons, List.nodup_cons] at hnd
      have hk : k ∉ acc.map Prod.fst := hdisj k (by simp)
      have hstep : mapSet acc k v = acc ++ [(k, v)] :=
        mapSet_of_not_mem acc v hk
      simp only [List.foldl_cons, hstep]
      rw [ih (acc ++ [(k, v)]) ?_ hnd.2]
      · simp
      · intro a ha hmem
        have hmem' : a ∈ acc.map Prod.fst ++ [k] := by simpa using hmem
        rcases List.mem_append.mp hmem' with h₁ | h₁
        · exact hdisj a (by simp [ha]) h₁
        · have hak : a = k := by simpa using h₁
          subst hak
          exact hnd.1 ha

theorem foldl_mapSet_nil {α : Type} (m : List (String × α))
    (hnd : (m.map Prod.fst).Nodup) :
    m.foldl (fun acc kv => mapSet acc kv.1 kv.2) [] = m := by
  simpa using foldl_mapSet_append m [] (by simp) hnd

theorem foldl_setAdd_append (s : List String) :
    ∀ acc : List String, (∀ a ∈ s, a ∉ acc) → s.Nodup →
      s.foldl setAdd acc = acc ++ s := by
  induction s with
  | nil => intro acc _ _; simp
  | cons hd tl ih =>
      intro acc hdisj hnd
      simp only [List.nodup_cons] at hnd
      have hstep : setAdd acc hd = acc ++ [hd] := by
        simp [setAdd, hdisj hd (by simp)]
      simp only [List.foldl_cons, hstep]
      rw [ih (acc ++ [hd]) ?_ hnd.2]
      · simp
      · intro a ha hmem
        rcases List.mem_append.mp hmem with h₁ | h₁
        · exact hdisj a (by simp [ha]) h₁
        · have hak : a = hd := by simpa using h₁
          subst hak
          exact hnd.1 ha

theorem foldl_setAdd_nil (s : List String) (hnd : s.Nodup) :
    s.foldl setAdd [] = s := by
  simpa using foldl_setAdd_append s [] (by simp) hnd

/-! ### The render layer does not touch the world state -/

theorem viewOnlyEq_refl (s : GameState) : ViewOnlyEq s s :=
  ⟨rfl, rfl, rfl, rfl⟩

theorem viewOnlyEq_trans {s t u : GameState} (h₁ : ViewOnlyEq s t)
    (h₂ : ViewOnlyEq t u) : ViewOnlyEq s u :=
  ⟨h₁.1.trans h₂.1, h₁.2.1.trans h₂.2.1, h₁.2.2.1.trans h₂.2.2.1,
    h₁.2.2.2.trans h₂.2.2.2⟩

theorem removeTokenLabel_viewOnly (st : GameState) (i j : Int) :
    ViewOnlyEq (removeTokenLabel st i j) st :=
  ⟨rfl, rfl, rfl, rfl⟩

theorem createTokenLabel_viewOnly (st : GameState) (i j : Int) (v : Int) :
    ViewOnlyEq (createTokenLabel st i j v) st := by
  unfold createTokenLabel
  split
  · exact ⟨rfl, rfl, rfl, rfl⟩
  · exact viewOnlyEq_refl st

theorem clearCellVisuals_viewOnly (st : GameState) :
    ViewOnlyEq (clearCellVisuals st) st :=
  ⟨rfl, rfl, rfl, rfl⟩

theorem spawnCell_viewOnly (luck : String → ℚ) (st : GameState)
    (i j : Int) : ViewOnlyEq (spawnCell luck st i j) st := by
  unfold spawnCell
  cases getCellState luck st i j
  · exact ⟨rfl, rfl, rfl, rfl⟩
  · exact viewOnlyEq_trans (createTokenLabel_viewOnly _ i j _)
      ⟨rfl, rfl, rfl, rfl⟩

theorem foldSpawn_viewOnly (luck : String → ℚ) (l : List (Int × Int)) :
    ∀ st : GameState,
      ViewOnlyEq (l.foldl (fun s p => spawnCell luck s p.1 p.2) st) st := by
  induction l with
  | nil => intro st; exact viewOnlyEq_refl st
  | cons hd tl ih =>
      intro st
      simp only [List.foldl_cons]
      exact viewOnlyEq_trans (ih _) (spawnCell_viewOnly luck st hd.1 hd.2)

theorem spawnAround_viewOnly (luck : String → ℚ) (st : GameState) :
    ViewOnlyEq (spawnCellsAroundPlayer luck st) st :=
  foldSpawn_viewOnly luck _ st

/-- A player move only rewrites the position and the render layer. -/
theorem movePlayer_viewOnly (luck : String → ℚ) (di dj : Int)
    (st : GameState) :
    ViewOnlyEq (movePlayer luck di dj st)
      { st with playerPosition :=
          ⟨st.playerPosition.i + di, st.playerPosition.j + dj⟩ } := by
  unfold movePlayer
  exact viewOnlyEq_trans (spawnAround_viewOnly luck _) ⟨rfl, rfl, rfl, rfl⟩

/-! ### Resolve lemmas -/

/-- `getCellState` reads only the override store (and the two luck keys it
derives from the coordinate). -/
theorem getCellState_congr (luck : String → ℚ) {s t : GameState}
    (h₁ : s.cellStates = t.cellStates) (h₂ : s.modifiedCells = t.modifiedCells)
    (i j : Int) : getCellState luck s i j = getCellState luck t i j := by
  unfold getCellState
  rw [h₁, h₂]

/-- Resolving after a mutation: the mutated key reads back the recorded
content, every other key resolves as before. -/
theorem getCellState_setCellState (luck : String → ℚ) (st : GameState)
    (a b : Int) (w : Option Int) (i j : Int) :
    getCellState luck (setCellState st a b w) i j =
      if getCellKey i j = getCellKey a b then w
      else getCellState luck st i j := by
  unfold getCellState setCellState
  by_cases hk : getCellKey i j = getCellKey a b
  · have hmem : getCellKey i j ∈ setAdd st.modifiedCells (getCellKey a b) :=
      (mem_setAdd_iff _ _ _).mpr (Or.inr hk)
    rw [if_pos hmem, if_pos hk, hk, mapGet_mapSet_self]
    rfl
  · have hiff : getCellKey i j ∈ setAdd st.modifiedCells (getCellKey a b) ↔
        getCellKey i j ∈ st.modifiedCells := by
      rw [mem_setAdd_iff]
      exact ⟨fun h => h.resolve_right hk, Or.inl⟩
    rw [if_neg hk]
    by_cases hin : getCellKey i j ∈ st.modifiedCells
    · rw [if_pos (hiff.mpr hin), if_pos hin,
        mapGet_mapSet_ne st.cellStates w hk]
    · rw [if_neg (fun h => hin (hiff.mp h)), if_neg hin]

/-- The contents that can be generated for a never-touched cell: a token of
value 1 or 2, or nothing. -/
theorem getCellState_not_modified (luck : String → ℚ) (st : GameState)
    (i j : Int) (h : getCellKey i j ∉ st.modifiedCells) :
    getCellState luck st i j = none ∨ getCellState luck st i j = some 1 ∨
      getCellState luck st i j = some 2 := by
  unfold getCellState
  rw [if_neg h]
  by_cases h₁ : luck (jsArrayToString [toString i, toString j]) <
      CACHE_SPAWN_PROBABILITY
  · rw [if_pos h₁]
    by_cases h₂ : luck (jsArrayToString [toString i, toString j, "value"]) <
        mkRat 1 2
    · rw [if_pos h₂]; exact Or.inr (Or.inl rfl)
    · rw [if_neg h₂]; exact Or.inr (Or.inr rfl)
  · rw [if_neg h₁]; exact Or.inl rfl

/-! ### Store consistency and the power-of-two discipline -/

theorem optPow2_one : optPow2 (some 1) := ⟨one_pos, 0, rfl⟩

theorem optPow2_two : optPow2 (some 2) := ⟨two_pos, 1, rfl⟩

theorem optPow2_double {v : Int} (h : optPow2 (some v)) :
    optPow2 (some (v * 2)) := by
  obtain ⟨hpos, n, rfl⟩ := h
  exact ⟨by positivity, n + 1, (pow_succ 2 n).symm⟩

theorem wfStore_congr {s t : GameState} (h₁ : s.cellStates = t.cellStates)
    (h₂ : s.modifiedCells = t.modifiedCells) (hw : WFStore t) : WFStore s := by
  unfold WFStore
  rw [h₁, h₂]
  exact hw

theorem pow2Inv_congr (luck : String → ℚ) {s t : GameState}
    (h₁ : s.cellStates = t.cellStates) (h₂ : s.modifiedCells = t.modifiedCells)
    (h₃ : s.heldToken = t.heldToken) (hp : Pow2Inv luck t) :
    Pow2Inv luck s := by
  constructor
  · intro i j
    rw [getCellState_congr luck h₁ h₂ i j]
    exact hp.1 i j
  · rw [h₃]
    exact hp.2

theorem setCellState_WF (st : GameState) (i j : Int) (v : Option Int)
    (h : WFStore st) : WFStore (setCellState st i j v) := by
  obtain ⟨h₁, h₂, h₃⟩ := h
  refine ⟨nodup_keys_mapSet _ _ _ h₁, setAdd_nodup _ _ h₂, ?_⟩
  intro k
  show k ∈ setAdd st.modifiedCells (getCellKey i j) ↔
    (mapGet (mapSet st.cellStates (getCellKey i j) v) k).isSome = true
  by_cases hk : k = getCellKey i j
  · subst hk
    rw [mapGet_mapSet_self]
    simp [mem_setAdd_iff]
  · rw [mem_setAdd_iff, mapGet_mapSet_ne st.cellStates v hk]
    constructor
    · rintro (hin | heq)
      · exact (h₃ k).mp hin
      · exact absurd heq hk
    · intro hs
      exact Or.inl ((h₃ k).mpr hs)

/-- Any state whose override store is empty generates all its content, so
contents are `none`, `1` or `2`. -/
theorem pow2Inv_empty (luck : String → ℚ) (st : GameState)
    (hmc : st.modifiedCells = []) (hheld : st.heldToken = none) :
    Pow2Inv luck st := by
  constructor
  · intro i j
    have h : getCellKey i j ∉ st.modifiedCells := by
      rw [hmc]
      exact List.not_mem_nil _
    rcases getCellState_not_modified luck st i j h with h₁ | h₁ | h₁ <;>
      rw [h₁]
    · exact trivial
    · exact optPow2_one
    · exact optPow2_two
  · rw [hheld]
    exact trivial

theorem wfStore_empty (st : GameState) (hcs : st.cellStates = [])
    (hmc : st.modifiedCells = []) : WFStore st := by
  refine ⟨?_, ?_, ?_⟩
  · rw [hcs]; exact List.nodup_nil
  · rw [hmc]; exact List.nodup_nil
  · intro k
    rw [hcs, hmc]
    simp [mapGet]

/-- A click preserves store consistency and the power-of-two discipline. -/
theorem handleClick_inv (luck : String → ℚ) (st : GameState) (i j : Int)
    (hWF : WFStore st) (hP : Pow2Inv luck st) :
    WFStore (handleCellClick luck st i j).1 ∧
      Pow2Inv luck (handleCellClick luck st i j).1 := by
  unfold handleCellClick
  rcases hcv : getCellState luck st i j with _ | v <;>
    rcases hh : st.heldToken with _ | h
  · -- empty cell, empty hand: no-op
    exact ⟨hWF, hP⟩
  · -- place: the held token moves into the cell
    have hlbl := createTokenLabel_viewOnly (setCellState st i j (some h)) i j h
    constructor
    · exact wfStore_congr hlbl.1 hlbl.2.1 (setCellState_WF st i j _ hWF)
    · constructor
      · intro a b
        show optPow2 (getCellState luck
          (createTokenLabel (setCellState st i j (some h)) i j h) a b)
        rw [getCellState_congr luck hlbl.1 hlbl.2.1 a b,
          getCellState_setCellState]
        split
        · rw [← hh]
          exact hP.2
        · exact hP.1 a b
      · exact trivial
  · -- pickup: the cell content moves into the hand
    have hset := setCellState_WF { st with heldToken := some v } i j none hWF
    have hrm := removeTokenLabel_viewOnly
      (setCellState { st with heldToken := some v } i j none) i j
    constructor
    · exact wfStore_congr hrm.1 hrm.2.1 hset
    · constructor
      · intro a b
        show optPow2 (getCellState luck (removeTokenLabel
          (setCellState { st with heldToken := some v } i j none) i j) a b)
        rw [getCellState_congr luck hrm.1 hrm.2.1 a b,
          getCellState_setCellState]
        split
        · exact trivial
        · rw [getCellState_congr luck rfl rfl a b]
          exact hP.1 a b
      · show optPow2 (some v)
        rw [← hcv]
        exact hP.1 i j
  · -- combine or mismatch
    by_cases hv : v = h
    · subst hv
      simp only [if_pos rfl]
      have hlbl := createTokenLabel_viewOnly
        (setCellState st i j (some (v * 2))) i j (v * 2)
      constructor
      · exact wfStore_congr hlbl.1 hlbl.2.1 (setCellState_WF st i j _ hWF)
      · constructor
        · intro a b
          show optPow2 (getCellState luck
            (createTokenLabel (setCellState st i j (some (v * 2))) i j (v * 2))
            a b)
          rw [getCellState_congr luck hlbl.1 hlbl.2.1 a b,
            getCellState_setCellState]
          split
          · refine optPow2_double ?_
            rw [← hcv]
            exact hP.1 i j
          · exact hP.1 a b
        · exact trivial
    · simp only [if_neg hv]
      exact ⟨hWF, hP⟩

/-! ### Snapshot round trip -/

theorem parseCellEntry_entryToJson (kv : String × Option Int) :
    parseCellEntry (entryToJson kv) = some kv := by
  obtain ⟨k, v⟩ := kv
  cases v <;> rfl

theorem loadCellEntries_map (m : List (String × Option Int)) :
    ∀ acc, loadCellEntries (m.map entryToJson) acc =
      Except.ok (m.foldl (fun acc kv => mapSet acc kv.1 kv.2) acc) := by
  induction m with
  | nil => intro acc; rfl
  | cons hd tl ih =>
      intro acc
      obtain ⟨k, v⟩ := hd
      simp only [List.map_cons, loadCellEntries,
        parseCellEntry_entryToJson (k, v), ih, List.foldl_cons]

theorem loadModifiedKeys_map (s : List String) :
    ∀ acc,
      loadModifiedKeys (s.map (fun k => JEntry.atom (JAtom.str k))) acc =
      Except.ok (s.foldl setAdd acc) := by
  induction s with
  | nil => intro acc; rfl
  | cons hd tl ih =>
      intro acc
      simp only [List.map_cons, loadModifiedKeys, ih, List.foldl_cons]

theorem readHeld_numOrNull (h : Option Int) :
    readHeld (some (JField.atom (numOrNullToJson h))) = h := by
  cases h <;> rfl

/-- Loading the snapshot saved from a consistent state restores exactly the
held token and the two override-store structures, whatever in-memory state
the load starts from. -/
theorem loadGameState_save (st base : GameState)
    (hnd₁ : (st.cellStates.map Prod.fst).Nodup)
    (hnd₂ : st.modifiedCells.Nodup) :
    loadGameState (StoredState.parsed (saveGameState st)) base =
      (true,
        { base with
          heldToken := st.heldToken
          cellStates := st.cellStates
          modifiedCells := st.modifiedCells }) := by
  have h1 : jGet (saveGameState st) "heldToken" =
      some (JField.atom (numOrNullToJson st.heldToken)) := rfl
  have h2 : jGet (saveGameState st) "cellStates" =
      some (JField.arr (st.cellStates.map entryToJson)) := rfl
  have h3 : jGet (saveGameState st) "modifiedCells" =
      some (JField.arr (st.modifiedCells.map
        (fun k => JEntry.atom (JAtom.str k)))) := rfl
  simp only [loadGameState, h1, h2, h3, readHeld_numOrNull,
    loadCellEntries_map, loadModifiedKeys_map, foldl_mapSet_nil _ hnd₁,
    foldl_setAdd_nil _ hnd₂]

/-- The startup restore of a saved snapshot reproduces the held token, the
override store and the player position of the saved state. -/
theorem restoreStartup_save (luck : String → ℚ) (st : GameState)
    (hnd₁ : (st.cellStates.map Prod.fst).Nodup)
    (hnd₂ : st.modifiedCells.Nodup) :
    ViewOnlyEq
      (restoreStartup luck (StoredState.parsed (saveGameState st))
        initialState)
      { initialState with
        heldToken := st.heldToken
        cellStates := st.cellStates
        modifiedCells := st.modifiedCells
        playerPosition := st.playerPosition } := by
  have hpos : readCoord (jGet (saveGameState st) "playerPosition") =
      st.playerPosition := rfl
  unfold restoreStartup
  rw [loadGameState_save st initialState hnd₁ hnd₂]
  exact viewOnlyEq_trans (spawnAround_viewOnly luck _)
    ⟨rfl, rfl, rfl, hpos⟩

/-! ### The reachable-state invariant -/

/-- Every reachable state keeps its override store consistent and all its
contents powers of two. -/
theorem reachable_inv (luck : String → ℚ) (st : GameState)
    (h : Reachable luck st) : WFStore st ∧ Pow2Inv luck st := by
  induction h with
  | init =>
      exact ⟨wfStore_empty initialState rfl rfl,
        pow2Inv_empty luck initialState rfl rfl⟩
  | move di dj hs ih =>
      rename_i s
      have hv := movePlayer_viewOnly luck di dj s
      exact ⟨wfStore_congr hv.1 hv.2.1 ih.1,
        pow2Inv_congr luck hv.1 hv.2.1 hv.2.2.1 ih.2⟩
  | click i j hs ih =>
      rename_i s
      show WFStore (clickCell luck s i j).1 ∧
        Pow2Inv luck (clickCell luck s i j).1
      unfold clickCell
      by_cases hn : isNearby s i j
      · rw [if_pos hn]
        exact ⟨(handleClick_inv luck s i j ih.1 ih.2).1,
          (handleClick_inv luck s i j ih.1 ih.2).2⟩
      · rw [if_neg hn]
        exact ih
  | spawn hs ih =>
      rename_i s
      have hv := spawnAround_viewOnly luck s
      exact ⟨wfStore_congr hv.1 hv.2.1 ih.1,
        pow2Inv_congr luck hv.1 hv.2.1 hv.2.2.1 ih.2⟩
  | reset hs ih =>
      rename_i s
      have hv := viewOnlyEq_trans
        (spawnAround_viewOnly luck
          (clearCellVisuals
            { s with
              heldToken := none
              cellStates := []
              modifiedCells := []
              playerPosition := defaultPosition }))
        (clearCellVisuals_viewOnly _)
      exact ⟨wfStore_congr hv.1 hv.2.1 (wfStore_empty _ rfl rfl),
        pow2Inv_congr luck hv.1 hv.2.1 hv.2.2.1
          (pow2Inv_empty luck _ rfl rfl)⟩
  | load hs ih =>
      rename_i s
      have hv := restoreStartup_save luck s ih.1.1 ih.1.2.1
      exact ⟨wfStore_congr hv.1 hv.2.1 (wfStore_congr rfl rfl ih.1),
        pow2Inv_congr luck hv.1 hv.2.1 hv.2.2.1
          (pow2Inv_congr luck rfl rfl rfl ih.2)⟩

/-! ### The spawned neighborhood -/

theorem mem_intRange (a b k : Int) : k ∈ intRange a b ↔ a ≤ k ∧ k < b := by
  simp only [intRange, List.mem_map, List.mem_range]
  constructor
  · rintro ⟨n, hn, rfl⟩
    omega
  · rintro ⟨h₁, h₂⟩
    exact ⟨(k - a).toNat, by omega, by omega⟩

theorem mem_neighborhoodList (c : Coord) (i j : Int) :
    (i, j) ∈ neighborhoodList c ↔
      c.i - NEIGHBORHOOD_SIZE ≤ i ∧ i < c.i + NEIGHBORHOOD_SIZE ∧
        c.j - NEIGHBORHOOD_SIZE ≤ j ∧ j < c.j + NEIGHBORHOOD_SIZE := by
  simp only [neighborhoodList, List.mem_flatMap, List.mem_map,
    mem_intRange, Prod.mk.injEq]
  constructor
  · rintro ⟨i₁, hi, j₁, hj, rfl, rfl⟩
    exact ⟨hi.1, hi.2, hj.1, hj.2⟩
  · rintro ⟨h₁, h₂, h₃, h₄⟩
    exact ⟨i, ⟨h₁, h₂⟩, j, ⟨h₃, h₄⟩, rfl, rfl⟩

theorem createTokenLabel_cellRects (st : GameState) (i j v : Int) :
    (createTokenLabel st i j v).cellRects = st.cellRects := by
  unfold createTokenLabel
  split <;> rfl

theorem mapGet_isSome_mapSet_mono {α : Type} (m : List (String × α))
    (k a : String) (v : α) (h : (mapGet m a).isSome = true) :
    (mapGet (mapSet m k v) a).isSome = true := by
  by_cases hk : a = k
  · subst hk
    rw [mapGet_mapSet_self]
    rfl
  · rw [mapGet_mapSet_ne m v hk]
    exact h

theorem spawnCell_rects_mono (luck : String → ℚ) (st : GameState)
    (i j : Int) (a : String) (h : (mapGet st.cellRects a).isSome = true) :
    (mapGet (spawnCell luck st i j).cellRects a).isSome = true := by
  unfold spawnCell
  cases getCellState luck st i j
  · exact mapGet_isSome_mapSet_mono _ _ _ _ h
  · rw [createTokenLabel_cellRects]
    exact mapGet_isSome_mapSet_mono _ _ _ _ h

theorem spawnCell_rects_self (luck : String → ℚ) (st : GameState)
    (i j : Int) :
    (mapGet (spawnCell luck st i j).cellRects (getCellKey i j)).isSome =
      true := by
  unfold spawnCell
  cases getCellState luck st i j
  · rw [mapGet_mapSet_self]
    rfl
  · rw [createTokenLabel_cellRects]
    rw [mapGet_mapSet_self]
    rfl

theorem foldSpawn_rects_mono (luck : String → ℚ) (l : List (Int × Int)) :
    ∀ st : GameState, ∀ a : String, (mapGet st.cellRects a).isSome = true →
      (mapGet ((l.foldl (fun s q => spawnCell luck s q.1 q.2) st)).cellRects
        a).isSome = true := by
  induction l with
  | nil => intro st a h; exact h
  | cons hd tl ih =>
      intro st a h
      simp only [List.foldl_cons]
      exact ih _ a (spawnCell_rects_mono luck st hd.1 hd.2 a h)

theorem foldSpawn_rects_mem (luck : String → ℚ) (l : List (Int × Int)) :
    ∀ st : GameState, ∀ p : Int × Int, p ∈ l →
      (mapGet ((l.foldl (fun s q => spawnCell luck s q.1 q.2) st)).cellRects
        (getCellKey p.1 p.2)).isSome = true := by
  induction l with
  | nil => intro st p hp; exact absurd hp (List.not_mem_nil p)
  | cons hd tl ih =>
      intro st p hp
      simp only [List.foldl_cons]
      rcases List.mem_cons.mp hp with rfl | hp₁
      · exact foldSpawn_rects_mono luck tl _ _
          (spawnCell_rects_self luck st p.1 p.2)
      · exact ih _ p hp₁

/-! ### Rebuild operations for the durability claim -/

theorem applyRebuild_store (luck : String → ℚ) (st : GameState)
    (op : RebuildOp) :
    (applyRebuild luck st op).cellStates = st.cellStates ∧
      (applyRebuild luck st op).modifiedCells = st.modifiedCells := by
  cases op with
  | move di dj =>
      have hv := movePlayer_viewOnly luck di dj st
      exact ⟨hv.1, hv.2.1⟩
  | clearVisuals => exact ⟨rfl, rfl⟩
  | spawnNeighborhood =>
      have hv := spawnAround_viewOnly luck st
      exact ⟨hv.1, hv.2.1⟩

theorem applyRebuilds_store (luck : String → ℚ) (ops : List RebuildOp) :
    ∀ st : GameState,
      (applyRebuilds luck ops st).cellStates = st.cellStates ∧
        (applyRebuilds luck ops st).modifiedCells = st.modifiedCells := by
  induction ops with
  | nil => intro st; exact ⟨rfl, rfl⟩
  | cons hd tl ih =>
      intro st
      have h₁ := applyRebuild_store luck st hd
      have h₂ := ih (applyRebuild luck st hd)
      exact ⟨h₂.1.trans h₁.1, h₂.2.trans h₁.2⟩

/-- The classroom start cell evaluates to `(369979, -1220571)` (floors of
the classroom coordinates over the tile size). -/
theorem defaultPosition_eq : defaultPosition = ⟨369979, -1220571⟩ := by
  unfold defaultPosition latLngToCell CLASSROOM_LAT CLASSROOM_LNG
    TILE_DEGREES
  have h₁ : ⌊(mkRat 36997936938057016 1000000000000000 : ℚ) /
      mkRat 1 10000⌋ = (369979 : Int) := by
    rw [Rat.mkRat_eq_div, Rat.mkRat_eq_div, Int.floor_eq_iff]
    norm_num
  have h₂ : ⌊(mkRat (-12205703507501151) 100000000000000 : ℚ) /
      mkRat 1 10000⌋ = (-1220571 : Int) := by
    rw [Rat.mkRat_eq_div, Rat.mkRat_eq_div, Int.floor_eq_iff]
    norm_num
  rw [h₁, h₂]

/-- The pickup transition as an equation on states. -/
theorem handleCellClick_pickup (luck : String → ℚ) (st : GameState)
    (i j v : Int) (hcell : getCellState luck st i j = some v)
    (hheld : st.heldToken = none) :
    handleCellClick luck st i j =
      (removeTokenLabel
        (setCellState { st with heldToken := some v } i j none) i j,
        Signal.ok) := by
  unfold handleCellClick
  rw [hcell, hheld]

/-! ### Claim theorems -/

/-- Claim C1: override durability.  For every coordinate and every content
(including `none`), after `setCellState` the resolved content stays the
recorded one across any sequence of player moves, visual teardowns and
neighborhood respawns, and those rebuilds never change `cellStates` or
`modifiedCells`. -/
theorem c1_override_durability (luck : String → ℚ) (st : GameState)
    (i j : Int) (v : Option Int) (ops : List RebuildOp) :
    getCellState luck (applyRebuilds luck ops (setCellState st i j v)) i j =
        v ∧
      (applyRebuilds luck ops (setCellState st i j v)).cellStates =
        (setCellState st i j v).cellStates ∧
      (applyRebuilds luck ops (setCellState st i j v)).modifiedCells =
        (setCellState st i j v).modifiedCells := by
  have hs := applyRebuilds_store luck ops (setCellState st i j v)
  refine ⟨?_, hs.1, hs.2⟩
  rw [getCellState_congr luck hs.1 hs.2 i j, getCellState_setCellState,
    if_pos rfl]

/-- Claim C2: snapshot round trip.  Restoring the snapshot saved from a
reachable state reproduces every resolved content, the held token and the
player position; and the snapshot override payload is exactly the
`cellStates` entry list, whose entries are exactly the overridden
coordinates with their contents. -/
theorem c2_snapshot_round_trip (luck : String → ℚ) (st : GameState)
    (h : Reachable luck st) :
    (∀ i j : Int,
        getCellState luck
          (restoreStartup luck (StoredState.parsed (saveGameState st))
            initialState) i j =
          getCellState luck st i j) ∧
      (restoreStartup luck (StoredState.parsed (saveGameState st))
        initialState).heldToken = st.heldToken ∧
      (restoreStartup luck (StoredState.parsed (saveGameState st))
        initialState).playerPosition = st.playerPosition ∧
      jGet (saveGameState st) "cellStates" =
        some (JField.arr (st.cellStates.map entryToJson)) ∧
      (∀ (k : String) (v : Option Int),
        (k, v) ∈ st.cellStates ↔
          k ∈ st.modifiedCells ∧ mapGet st.cellStates k = some v) := by
  obtain ⟨hWF, _⟩ := reachable_inv luck st h
  have hv := restoreStartup_save luck st hWF.1 hWF.2.1
  refine ⟨?_, hv.2.2.1, hv.2.2.2, rfl, ?_⟩
  · intro i j
    exact getCellState_congr luck hv.1 hv.2.1 i j
  · intro k v
    rw [mapGet_eq_some_iff_mem hWF.1 k v]
    constructor
    · intro hmem
      refine ⟨(hWF.2.2 k).mpr ?_, hmem⟩
      rw [(mapGet_eq_some_iff_mem hWF.1 k v).mpr hmem]
      rfl
    · exact fun hx => hx.2

/-- Witness for claim C2 at the initial state. -/
theorem c2_snapshot_round_trip_witness :
    getCellState luckW
        (restoreStartup luckW
          (StoredState.parsed (saveGameState initialState)) initialState)
        0 0 =
      getCellState luckW initialState 0 0 ∧
    (restoreStartup luckW (StoredState.parsed (saveGameState initialState))
      initialState).heldToken = initialState.heldToken ∧
    (restoreStartup luckW (StoredState.parsed (saveGameState initialState))
      initialState).playerPosition = initialState.playerPosition :=
  ⟨(c2_snapshot_round_trip luckW initialState Reachable.init).1 0 0,
    (c2_snapshot_round_trip luckW initialState Reachable.init).2.1,
    (c2_snapshot_round_trip luckW initialState Reachable.init).2.2.1⟩

/-- Counterexample to claim C3 as stated: with the Deterministic Field
`luckCex`, the code resolves cell (0,0) to token value 2 (its value draw
uses key `"0,0,value"`), while the formula of the claim — value draw keyed
by `coordKey ++ "value"`, that is `"0,0value"` — yields token value 1. -/
theorem c3_value_key_counterexample :
    ¬ (getCellState luckCex initialState 0 0 =
        if luckCex (getCellKey 0 0) < CACHE_SPAWN_PROBABILITY then
          some (if luckCex (getCellKey 0 0 ++ "value") < mkRat 1 2
            then 1 else 2)
        else none) := by
  decide

/-- Claim C3 (amended): for a never-overridden coordinate the resolved
content is a token iff the presence draw keyed by the coordinate key is
below the spawn probability, and the token value comes from the
independent draw keyed by the coordinate key extended with `",value"`
(the JS array `[i, j, "value"]` joins with commas); value 1 below 1/2,
else value 2.  The result is a pure function of the luck draws: nothing is
stored. -/
theorem c3_resolve_unmodified (luck : String → ℚ) (st : GameState)
    (i j : Int) (h : getCellKey i j ∉ st.modifiedCells) :
    getCellState luck st i j =
      if luck (getCellKey i j) < CACHE_SPAWN_PROBABILITY then
        some (if luck (getCellKey i j ++ ",value") < mkRat 1 2
          then 1 else 2)
      else none := by
  have h₂ : jsArrayToString [toString i, toString j] = getCellKey i j := rfl
  have h₃ : jsArrayToString [toString i, toString j, "value"] =
      getCellKey i j ++ ",value" := by
    show toString i ++ "," ++ (toString j ++ "," ++ "value") =
      toString i ++ "," ++ toString j ++ ",value"
    rw [String.append_assoc (toString i ++ ",") (toString j) ",value",
      String.append_assoc (toString j) "," "value"]
    rfl
  unfold getCellState
  rw [if_neg h, h₂, h₃]

/-- Witness for claim C3 (amended) at the origin cell of the fresh
state. -/
theorem c3_resolve_unmodified_witness :
    getCellKey 0 0 ∉ initialState.modifiedCells ∧
    getCellState luckW initialState 0 0 =
      (if luckW (getCellKey 0 0) < CACHE_SPAWN_PROBABILITY then
        some (if luckW (getCellKey 0 0 ++ ",value") < mkRat 1 2
          then 1 else 2)
      else none) :=
  ⟨by decide, c3_resolve_unmodified luckW initialState 0 0 (by decide)⟩

/-- Counterexample to claim C4 as stated: the cell `(8, 0)` is at
Chebyshev distance exactly `NEIGHBORHOOD_SIZE` from a player at the
origin, yet the spawn loops never visit it. -/
theorem c4_neighborhood_counterexample :
    cellDistance 8 0 0 0 ≤ NEIGHBORHOOD_SIZE ∧
      (8, 0) ∉ neighborhoodList ⟨0, 0⟩ := by
  constructor
  · decide
  · intro hmem
    have hbox := (mem_neighborhoodList ⟨0, 0⟩ 8 0).mp hmem
    simp only [NEIGHBORHOOD_SIZE] at hbox
    omega

/-- Claim C4 (amended): the cells materialized by
`spawnCellsAroundPlayer` are exactly the half-open square
`center − radius ≤ coordinate < center + radius` in both axes (Chebyshev
offsets from `−radius` through `radius − 1`), and every visited cell gets
a rectangle recorded under its key. -/
theorem c4_spawned_neighborhood (luck : String → ℚ) (st : GameState)
    (i j : Int) :
    ((i, j) ∈ neighborhoodList st.playerPosition ↔
        st.playerPosition.i - NEIGHBORHOOD_SIZE ≤ i ∧
          i < st.playerPosition.i + NEIGHBORHOOD_SIZE ∧
          st.playerPosition.j - NEIGHBORHOOD_SIZE ≤ j ∧
          j < st.playerPosition.j + NEIGHBORHOOD_SIZE) ∧
      ((i, j) ∈ neighborhoodList st.playerPosition →
        (mapGet (spawnCellsAroundPlayer luck st).cellRects
          (getCellKey i j)).isSome = true) := by
  refine ⟨mem_neighborhoodList _ i j, ?_⟩
  intro hmem
  exact foldSpawn_rects_mem luck _ st (i, j) hmem

/-- Witness for claim C4 (amended): the origin cell is spawned for a
player at the origin. -/
theorem c4_spawned_neighborhood_witness :
    (0, 0) ∈ neighborhoodList stW.playerPosition ∧
      (mapGet (spawnCellsAroundPlayer luckW stW).cellRects
        (getCellKey 0 0)).isSome = true :=
  ⟨by decide, (c4_spawned_neighborhood luckW stW 0 0).2 (by decide)⟩

/-- Claim C5: combine.  A click on an interactive cell resolving to the
same value as the held token records the doubled value in the override
store and empties the hand, for every value `v` — no cap and no special
treatment of the victory threshold. -/
theorem c5_combine_doubles (luck : String → ℚ) (st : GameState)
    (i j v : Int) (hnear : isNearby st i j = true)
    (hcell : getCellState luck st i j = some v)
    (hheld : st.heldToken = some v) :
    (clickCell luck st i j).2 = Signal.ok ∧
      (clickCell luck st i j).1.heldToken = none ∧
      getCellState luck (clickCell luck st i j).1 i j = some (v * 2) ∧
      getCellKey i j ∈ (clickCell luck st i j).1.modifiedCells ∧
      mapGet (clickCell luck st i j).1.cellStates (getCellKey i j) =
        some (some (v * 2)) := by
  have hclick : clickCell luck st i j =
      ({ createTokenLabel (setCellState st i j (some (v * 2))) i j (v * 2)
          with heldToken := none }, Signal.ok) := by
    unfold clickCell handleCellClick
    rw [if_pos hnear, hcell, hheld]
    simp
  have hlbl := createTokenLabel_viewOnly
    (setCellState st i j (some (v * 2))) i j (v * 2)
  have hsig : (clickCell luck st i j).2 = Signal.ok := by rw [hclick]
  have hheld₂ : (clickCell luck st i j).1.heldToken = none := by rw [hclick]
  have hcs : (clickCell luck st i j).1.cellStates =
      (createTokenLabel (setCellState st i j (some (v * 2))) i j
        (v * 2)).cellStates := by
    rw [hclick]
  have hmc : (clickCell luck st i j).1.modifiedCells =
      (createTokenLabel (setCellState st i j (some (v * 2))) i j
        (v * 2)).modifiedCells := by
    rw [hclick]
  refine ⟨hsig, hheld₂, ?_, ?_, ?_⟩
  · rw [getCellState_congr luck (hcs.trans hlbl.1) (hmc.trans hlbl.2.1) i j,
      getCellState_setCellState, if_pos rfl]
  · rw [hmc.trans hlbl.2.1]
    exact (mem_setAdd_iff _ _ _).mpr (Or.inr rfl)
  · rw [hcs.trans hlbl.1]
    exact mapGet_mapSet_self _ _ _

/-- Witness for claim C5 at the victory threshold: combining two 64
tokens yields 128. -/
theorem c5_combine_doubles_witness :
    isNearby stW 0 0 = true ∧ getCellState luckW stW 0 0 = some 64 ∧
      stW.heldToken = some 64 ∧
      ((clickCell luckW stW 0 0).2 = Signal.ok ∧
        (clickCell luckW stW 0 0).1.heldToken = none ∧
        getCellState luckW (clickCell luckW stW 0 0).1 0 0 =
          some (64 * 2) ∧
        getCellKey 0 0 ∈ (clickCell luckW stW 0 0).1.modifiedCells ∧
        mapGet (clickCell luckW stW 0 0).1.cellStates (getCellKey 0 0) =
          some (some (64 * 2))) :=
  ⟨by decide, by decide, rfl,
    c5_combine_doubles luckW stW 0 0 64 (by decide) (by decide) rfl⟩

/-- Claim C6: rejected combine.  A click on an interactive cell whose
resolved value differs from the held token returns the state completely
unchanged, with the values-must-match signal. -/
theorem c6_mismatch_rejected (luck : String → ℚ) (st : GameState)
    (i j v h : Int) (hnear : isNearby st i j = true)
    (hcell : getCellState luck st i j = some v)
    (hheld : st.heldToken = some h) (hne : v ≠ h) :
    clickCell luck st i j = (st, Signal.cannotCombine) := by
  unfold clickCell handleCellClick
  rw [if_pos hnear, hcell, hheld]
  simp [hne]

/-- Witness for claim C6: holding 2 over a cell holding 1. -/
theorem c6_mismatch_rejected_witness :
    isNearby stC6 0 0 = true ∧ getCellState luckW stC6 0 0 = some 1 ∧
      stC6.heldToken = some 2 ∧ (1 : Int) ≠ 2 ∧
      clickCell luckW stC6 0 0 = (stC6, Signal.cannotCombine) :=
  ⟨by decide, by decide, rfl, by decide,
    c6_mismatch_rejected luckW stC6 0 0 1 2 (by decide) (by decide) rfl
      (by decide)⟩

/-- Claim C7 is contradicted by the code: restoring the parseable but
malformed snapshot `{"heldToken": 7, "cellStates": 5}` is caught and
leaves the override store empty and the position at the default, but the
held token keeps the value 7 read before the loop threw — not the
fresh-start `none` the claim requires. -/
theorem c7_partial_restore_bug :
    (restoreStartup luckW (StoredState.parsed badSnapshot)
      initialState).heldToken = some 7 ∧
    (restoreStartup luckW (StoredState.parsed badSnapshot)
      initialState).cellStates = [] ∧
    (restoreStartup luckW (StoredState.parsed badSnapshot)
      initialState).modifiedCells = [] ∧
    (restoreStartup luckW (StoredState.parsed badSnapshot)
      initialState).playerPosition = defaultPosition := by
  refine ⟨?_, ?_, ?_, ?_⟩
  · unfold restoreStartup
    exact ((spawnAround_viewOnly luckW _).2.2.1).trans rfl
  · unfold restoreStartup
    exact ((spawnAround_viewOnly luckW _).1).trans rfl
  · unfold restoreStartup
    exact ((spawnAround_viewOnly luckW _).2.1).trans rfl
  · unfold restoreStartup
    exact ((spawnAround_viewOnly luckW _).2.2.2).trans rfl

/-- Claim C8: interaction radius boundary.  With the player at the
origin, the cell `(r, 0)` is interactive and `(r + 1, 0)` is not, for the
configured radius `r`. -/
theorem c8_interaction_radius_boundary (st : GameState)
    (h : st.playerPosition = ⟨0, 0⟩) :
    isNearby st INTERACTION_RADIUS 0 = true ∧
      isNearby st (INTERACTION_RADIUS + 1) 0 = false := by
  unfold isNearby
  rw [h]
  constructor
  · decide
  · decide

/-- Witness for claim C8. -/
theorem c8_interaction_radius_boundary_witness :
    stW.playerPosition = ⟨0, 0⟩ ∧
      (isNearby stW INTERACTION_RADIUS 0 = true ∧
        isNearby stW (INTERACTION_RADIUS + 1) 0 = false) :=
  ⟨rfl, c8_interaction_radius_boundary stW rfl⟩

/-- Claim C9: power-of-two invariant.  In every reachable state, every
resolved cell content and the held token are empty or a positive integer
power of two. -/
theorem c9_power_of_two_invariant (luck : String → ℚ) (st : GameState)
    (h : Reachable luck st) :
    (∀ i j : Int, optPow2 (getCellState luck st i j)) ∧
      optPow2 st.heldToken :=
  (reachable_inv luck st h).2

/-- Witness for claim C9 at the initial state and the origin cell. -/
theorem c9_power_of_two_invariant_witness :
    optPow2 (getCellState luckW initialState 0 0) ∧
      optPow2 initialState.heldToken :=
  ⟨(c9_power_of_two_invariant luckW initialState Reachable.init).1 0 0,
    (c9_power_of_two_invariant luckW initialState Reachable.init).2⟩

/-- Claim C10: store consistency.  In every reachable state, every key in
`modifiedCells` has a `cellStates` entry, so the unchecked lookup inside
`getCellState` never dereferences a missing entry. -/
theorem c10_store_consistency (luck : String → ℚ) (st : GameState)
    (h : Reachable luck st) (k : String) (hk : k ∈ st.modifiedCells) :
    (mapGet st.cellStates k).isSome = true :=
  ((reachable_inv luck st h).1.2.2 k).mp hk

/-- Witness for claim C10: after one pickup click on the start cell, the
overridden key has an entry. -/
theorem c10_store_consistency_witness :
    "369979,-1220571" ∈ s10.modifiedCells ∧
      (mapGet s10.cellStates "369979,-1220571").isSome = true := by
  have hpos : initialState.playerPosition = ⟨369979, -1220571⟩ :=
    defaultPosition_eq
  have hn : isNearby initialState 369979 (-1220571) = true := by
    unfold isNearby
    rw [hpos]
    decide
  have hcell : getCellState luckW initialState 369979 (-1220571) =
      some 1 := by decide
  have hclick : clickCell luckW initialState 369979 (-1220571) =
      (removeTokenLabel
        (setCellState { initialState with heldToken := some 1 }
          369979 (-1220571) none) 369979 (-1220571),
        Signal.ok) := by
    unfold clickCell
    rw [if_pos hn]
    exact handleCellClick_pickup luckW initialState 369979 (-1220571) 1
      hcell rfl
  have hkey : getCellKey 369979 (-1220571) = "369979,-1220571" := by decide
  have hmem : "369979,-1220571" ∈ s10.modifiedCells := by
    show "369979,-1220571" ∈
      (clickCell luckW initialState 369979 (-1220571)).1.modifiedCells
    rw [hclick]
    show "369979,-1220571" ∈
      setAdd initialState.modifiedCells (getCellKey 369979 (-1220571))
    rw [hkey]
    exact (mem_setAdd_iff _ _ _).mpr (Or.inr rfl)
  exact ⟨hmem,
    c10_store_consistency luckW s10
      (Reachable.click 369979 (-1220571) Reachable.init)
      "369979,-1220571" hmem⟩

end WorldOfBits
